import Mathlib

/-!
Shallow embedding of the routing core of a layer-7 HTTP load balancer
(`load_balancer.py`): backend registry, the four selection algorithms,
per-request metrics bookkeeping, the administrative policy switch, and the
health-check probe step.  Python floats (request durations, averages) are
modelled as rationals; display rounding (`round(x, 2)`) is omitted.
String prefix/suffix/containment tests are modelled at the character-list
level, which matches Python `str.startswith`/`endswith`/`in` exactly.
-/

/-- One backend descriptor, as in the `BACKENDS` table (lines 26-30). -/
structure Backend where
  name : String
  url : String
  type : String
  healthy : Bool
  color : String
deriving DecidableEq, Repr

/-- The static backend pool (lines 26-30). -/
def BACKENDS : List Backend :=
  [ { name := "ServerA", url := "http://localhost:5001", type := "video", healthy := true, color := "#FF6B6B" },
    { name := "ServerB", url := "http://localhost:5002", type := "api", healthy := true, color := "#4ECDC4" },
    { name := "ServerC", url := "http://localhost:5003", type := "image", healthy := true, color := "#95E1D3" } ]

/-- One entry of `request_history` (lines 188-196 / 216-224). -/
structure RequestRecord where
  timestamp : String
  path : String
  type : String
  backend : String
  duration : ℚ
  status : String
  optimized : Bool
deriving DecidableEq, Repr

/-- The mutable module-level state of `load_balancer.py`: the backend list
(health flags included), the `ALGORITHM` selector, the round-robin cursor,
the per-backend metric dictionaries (`defaultdict(int)` becomes a total
function defaulting to 0) and the bounded request history. -/
structure ProxyState where
  backends : List Backend
  algorithm : String
  current_index : Nat
  active_connections : String → Int
  total_requests : String → Int
  failed_requests : String → Int
  response_times : String → List ℚ
  request_history : List RequestRecord

/-- Point update of a string-keyed dictionary. -/
def upd {α : Type} (m : String → α) (k : String) (v : α) : String → α :=
  fun n => if n = k then v else m n

/-- Python `path.startswith(pre)`, at the character-list level. -/
def strStartsWith (s pre : String) : Bool :=
  pre.toList.isPrefixOf s.toList

/-- Python `path.endswith(suf)`, at the character-list level. -/
def strEndsWith (s suf : String) : Bool :=
  suf.toList.isSuffixOf s.toList

/-- Containment scan for character lists: `sub` occurs at some position. -/
def charsContain (sub : List Char) : List Char → Bool
  | [] => sub.isPrefixOf ([] : List Char)
  | c :: cs => sub.isPrefixOf (c :: cs) || charsContain sub cs

/-- Python `sub in s` (substring containment), at the character-list level. -/
def strContains (s sub : String) : Bool :=
  charsContain sub.toList s.toList

/-- `get_healthy_backends` (lines 44-46). -/
def get_healthy_backends (s : ProxyState) : List Backend :=
  s.backends.filter (fun b => b.healthy)

/-- `round_robin` (lines 66-77): early `None` on an empty healthy list,
otherwise index the healthy list at `current_index % len` and bump the
shared cursor. -/
def round_robin (s : ProxyState) : Option Backend × ProxyState :=
  let backends := get_healthy_backends s
  if backends = [] then (none, s)
  else
    (backends.get? (s.current_index % backends.length),
     { s with current_index := s.current_index + 1 })

/-- Python `min(l, key=f)` for a possibly empty list: `none` on `[]`
(the callers guard that case by returning `None` themselves), otherwise a
left fold that replaces the accumulator only on a strictly smaller key, so
the first minimal element wins — exactly CPython `min` semantics. -/
def pyMin (f : Backend → Int) : List Backend → Option Backend
  | [] => none
  | x :: xs => some (xs.foldl (fun acc y => if f y < f acc then y else acc) x)

/-- `least_connections` (lines 79-85). -/
def least_connections (s : ProxyState) : Option Backend :=
  pyMin (fun b => s.active_connections b.name) (get_healthy_backends s)

/-- `content_based_routing` (lines 87-111): classify by path prefix; among
matching healthy backends pick the least busy; otherwise fall back to
round-robin over all healthy backends. -/
def content_based_routing (s : ProxyState) (path : String) : Option Backend × ProxyState :=
  let backends := get_healthy_backends s
  if backends = [] then (none, s)
  else if strStartsWith path "video/" then
    let video_servers := backends.filter (fun b => b.type = "video")
    if video_servers ≠ [] then
      (pyMin (fun b => s.active_connections b.name) video_servers, s)
    else round_robin s
  else if strStartsWith path "api/" then
    let api_servers := backends.filter (fun b => b.type = "api")
    if api_servers ≠ [] then
      (pyMin (fun b => s.active_connections b.name) api_servers, s)
    else round_robin s
  else if strStartsWith path "image/" then
    let image_servers := backends.filter (fun b => b.type = "image")
    if image_servers ≠ [] then
      (pyMin (fun b => s.active_connections b.name) image_servers, s)
    else round_robin s
  else round_robin s

/-- The fixed large-file extension list (line 119). -/
def large_file_extensions : List String := [".mp4", ".mkv", ".avi", ".zip", ".iso"]

/-- `file_size_based_routing` (lines 113-126). -/
def file_size_based_routing (s : ProxyState) (path : String) : Option Backend × ProxyState :=
  let backends := get_healthy_backends s
  if backends = [] then (none, s)
  else
    let is_large_file :=
      large_file_extensions.any (fun ext => strEndsWith path ext) || strContains path "video/"
    if is_large_file then
      (pyMin (fun b => s.active_connections b.name) backends, s)
    else round_robin s

/-- `select_backend` (lines 128-139): dispatch on `ALGORITHM`, with
round-robin as the default branch. -/
def select_backend (s : ProxyState) (path : String) : Option Backend × ProxyState :=
  if s.algorithm = "round-robin" then round_robin s
  else if s.algorithm = "least-connections" then (least_connections s, s)
  else if s.algorithm = "content-based" then content_based_routing s path
  else if s.algorithm = "file-size" then file_size_based_routing s path
  else round_robin s

/-- Outcome of the forwarded transport call (`requests.request`, lines
173-181): an upstream response, or an exception (connection failure or the
10 s timeout).  The duration is the elapsed time in seconds. -/
inductive Outcome where
  | success (status : Nat) (content : String) (duration : ℚ)
  | failure (duration : ℚ)
deriving DecidableEq, Repr

/-- The proxy's reply to the caller. -/
inductive ProxyResponse where
  | unavailable
  | forwarded (status : Nat) (content : String)
  | badGateway (backendName : String)
deriving DecidableEq, Repr

/-- HTTP status code of each proxy reply (lines 151, 205-209, 232-235). -/
def ProxyResponse.statusCode : ProxyResponse → Nat
  | .unavailable => 503
  | .forwarded st _ => st
  | .badGateway _ => 502

/-- `request_history.append` followed by the 50-entry trim (lines 188-198). -/
def pushHistory (h : List RequestRecord) (r : RequestRecord) : List RequestRecord :=
  let h2 := h ++ [r]
  if h2.length > 50 then h2.drop 1 else h2

/-- `response_times[name].append(duration)` (line 184): a plain append. -/
def appendLatency (l : List ℚ) (d : ℚ) : List ℚ := l ++ [d]

/-- Python `l[-10:]`: the at-most-10 most recent entries. -/
def lastTen (l : List ℚ) : List ℚ := l.drop (l.length - 10)

/-- The per-backend average reported by `/lb/stats` (line 254) and the
dashboard broadcast (line 59): mean of the last 10 latencies, in
milliseconds (display rounding to 2 decimals omitted); 0 for an empty
list. -/
def avg_response_time_ms (l : List ℚ) : ℚ :=
  if l = [] then 0 else (lastTen l).sum / ((lastTen l).length : ℚ) * 1000

/-- The `with lock:` block at lines 157-159: bump active and total. -/
def beginRequest (s : ProxyState) (n : String) : ProxyState :=
  { s with
    active_connections := upd s.active_connections n (s.active_connections n + 1),
    total_requests := upd s.total_requests n (s.total_requests n + 1) }

/-- Success-path bookkeeping (lines 183-198): append the latency and push a
`success` history record. -/
def endRequestSuccess (s : ProxyState) (n : String) (duration : ℚ)
    (ts path rtype : String) (optimized : Bool) : ProxyState :=
  { s with
    response_times := upd s.response_times n (appendLatency (s.response_times n) duration),
    request_history := pushHistory s.request_history
      { timestamp := ts, path := path, type := rtype, backend := n,
        duration := duration * 1000, status := "success", optimized := optimized } }

/-- Failure-path bookkeeping (lines 214-226): bump the failed counter and
push a `failed` record with `optimized = False`.  Note: the source does not
append the duration to `response_times` on this path. -/
def endRequestFailure (s : ProxyState) (n : String) (duration : ℚ)
    (ts path rtype : String) : ProxyState :=
  { s with
    failed_requests := upd s.failed_requests n (s.failed_requests n + 1),
    request_history := pushHistory s.request_history
      { timestamp := ts, path := path, type := rtype, backend := n,
        duration := duration * 1000, status := "failed", optimized := false } }

/-- The `finally:` block (lines 237-239): release the active-connection
increment. -/
def releaseConnection (s : ProxyState) (n : String) : ProxyState :=
  { s with active_connections := upd s.active_connections n (s.active_connections n - 1) }

/-- Request-type classification for logging (lines 162-168). -/
def request_type_of (path : String) : String :=
  if strStartsWith path "video/" then "video"
  else if strStartsWith path "api/" then "api"
  else if strStartsWith path "image/" then "image"
  else "default"

/-- `proxy` (lines 143-239): select a backend (503 if none), begin the
request, forward (the transport outcome is a parameter), then run the
success or failure bookkeeping and always release the connection. -/
def proxy (s : ProxyState) (path : String) (o : Outcome) (ts : String) :
    ProxyResponse × ProxyState :=
  match select_backend s path with
  | (none, s1) => (.unavailable, s1)
  | (some backend, s1) =>
    let s2 := beginRequest s1 backend.name
    let rtype := request_type_of path
    match o with
    | .success status content duration =>
        (.forwarded status content,
         releaseConnection
           (endRequestSuccess s2 backend.name duration ts ("/" ++ path) rtype
             (backend.type == rtype)) backend.name)
    | .failure duration =>
        (.badGateway backend.name,
         releaseConnection
           (endRequestFailure s2 backend.name duration ts ("/" ++ path) rtype)
           backend.name)

/-- The accepted names of `change_algorithm` (line 267). -/
def valid_algorithms : List String :=
  ["round-robin", "least-connections", "content-based", "file-size"]

/-- `change_algorithm` (lines 260-274): returns `(message, HTTP status)`
and the new state. -/
def change_algorithm (s : ProxyState) (new_algo : String) :
    (String × Nat) × ProxyState :=
  if new_algo ∈ valid_algorithms then
    (("Algorithm changed to " ++ new_algo, 200), { s with algorithm := new_algo })
  else
    (("Invalid algorithm", 400), s)

/-- Outcome of one health probe (`requests.get(url + "/health", timeout=3)`,
line 283): an HTTP response with some status, or an exception (timeout or
connection error). -/
inductive ProbeResult where
  | response (status : Nat)
  | connectionError
deriving DecidableEq, Repr

/-- The body of the health-check loop for one backend (lines 282-300):
the flag is assigned in one step from the probe outcome alone. -/
def probeUpdate (b : Backend) (r : ProbeResult) : Backend :=
  match r with
  | .response status => { b with healthy := status == 200 }
  | .connectionError => { b with healthy := false }

/-- One full pass of the health-check loop over the pool (lines 280-301). -/
def health_check_pass (bs : List Backend) (probe : String → ProbeResult) : List Backend :=
  bs.map (fun b => probeUpdate b (probe b.name))

/-- The module state right after start-up: default dictionaries are empty
(every counter 0), cursor 0, `ALGORITHM = "content-based"` (line 42). -/
def initState : ProxyState :=
  { backends := BACKENDS, algorithm := "content-based", current_index := 0,
    active_connections := fun _ => 0, total_requests := fun _ => 0,
    failed_requests := fun _ => 0, response_times := fun _ => [],
    request_history := [] }

/-- One serialized metrics operation of a dispatch, as performed under the
shared lock: the begin block (lines 157-159) or the end of a request
(success or failure bookkeeping followed by the `finally` release).  A
concurrent run of the proxy is, by lock serialization, a list of these. -/
inductive Ev where
  | beginReq (name : String)
  | endReq (name : String) (success : Bool)
deriving DecidableEq, Repr

/-- Backend name an event touches. -/
def Ev.name : Ev → String
  | .beginReq n => n
  | .endReq n _ => n

def Ev.isBegin : Ev → Bool
  | .beginReq _ => true
  | .endReq _ _ => false

def Ev.isEnd : Ev → Bool
  | .beginReq _ => false
  | .endReq _ _ => true

def Ev.isFail : Ev → Bool
  | .beginReq _ => false
  | .endReq _ success => !success

/-- Number of dispatches begun against backend `n` (each bumps
`total_requests[n]` and `active_connections[n]`). -/
def beginsOf (t : List Ev) (n : String) : Nat :=
  t.countP (fun e => e.isBegin && e.name == n)

/-- Number of dispatches completed against backend `n` (each releases
`active_connections[n]` in the `finally` block). -/
def endsOf (t : List Ev) (n : String) : Nat :=
  t.countP (fun e => e.isEnd && e.name == n)

/-- Number of failed completions against backend `n` (each bumps
`failed_requests[n]`). -/
def failsOf (t : List Ev) (n : String) : Nat :=
  t.countP (fun e => e.isFail && e.name == n)

/-- Value of `active_connections[n]` after replaying the trace from the
all-zero initial dictionaries. -/
def activeOf (t : List Ev) (n : String) : Int :=
  (beginsOf t n : Int) - (endsOf t n : Int)

/-- The names of the fixed backend pool. -/
def serverNames : List String := ["ServerA", "ServerB", "ServerC"]

/-- Traces the proxy can actually produce: every event names a pool
backend, and a completion is only ever the delayed second half of an
earlier dispatch (the `finally` release and the end bookkeeping run only
after the lines 157-159 block of the same request), so in every prefix no
backend has more ends than begins. -/
def TraceOk (t : List Ev) : Prop :=
  (∀ e ∈ t, e.name ∈ serverNames) ∧
  (∀ k ≤ t.length, ∀ n ∈ serverNames, endsOf (t.take k) n ≤ beginsOf (t.take k) n)

instance (t : List Ev) : Decidable (TraceOk t) := by
  unfold TraceOk; infer_instance

/-- Sum of the active-connection counters across the pool. -/
def sumActive (t : List Ev) : Int :=
  activeOf t "ServerA" + activeOf t "ServerB" + activeOf t "ServerC"

/-- Dispatches begun without a matching completion, over the whole pool. -/
def openDispatches (t : List Ev) : Int :=
  (t.countP Ev.isBegin : Int) - (t.countP Ev.isEnd : Int)

/-- `N` successive round-robin selections: the list of chosen backends and
the final state.  Selection stops early only if no backend is healthy. -/
def rrRun : ProxyState → Nat → List Backend × ProxyState
  | s, 0 => ([], s)
  | s, Nat.succ n =>
    match round_robin s with
    | (some b, s1) =>
      let r := rrRun s1 n
      (b :: r.1, r.2)
    | (none, s1) => ([], s1)

/-- Modelled from the spec (§4.2 wording used by the claim): a probe is
"successful" when it returns a 2xx response.  The source instead tests
`status_code == 200` exactly; this definition exists only to state the
divergence. -/
def specProbeSuccess : ProbeResult → Bool
  | .response status => 200 ≤ status && status < 300
  | .connectionError => false

/-- Modelled from the spec (§4.4 wording used by the claim): an append
into a capacity-10 window that evicts the oldest entry when full.  The
source's `response_times` append (line 184) has no such bound; this
definition exists only to state the divergence. -/
def boundedAppendSpec (l : List ℚ) (d : ℚ) : List ℚ :=
  let l2 := l ++ [d]
  if 10 < l2.length then l2.drop (l2.length - 10) else l2

/-- A state in which every backend has failed its probe. -/
def downState : ProxyState :=
  { initState with backends := BACKENDS.map (fun b => { b with healthy := false }) }

/-- Concrete serialized traces used to witness the trace invariants. -/
def traceC1 : List Ev :=
  [.beginReq "ServerA", .beginReq "ServerB", .endReq "ServerB" false, .beginReq "ServerA"]

def traceC10 : List Ev :=
  [.beginReq "ServerC", .endReq "ServerC" false, .beginReq "ServerC", .endReq "ServerC" true]

/-- C1, stated: per-backend active counters never go negative at any
point of a serialized execution. -/
abbrev ActiveNonneg (t : List Ev) : Prop :=
  ∀ k, ∀ n ∈ serverNames, 0 ≤ activeOf (t.take k) n

/-- C1, stated: at every point, the pool-wide sum of active counters
equals the number of begun-but-not-completed dispatches. -/
abbrev SumMatchesOpen (t : List Ev) : Prop :=
  ∀ k, sumActive (t.take k) = openDispatches (t.take k)

/-- C1, stated: each dispatch increments the chosen backend's active
counter exactly once, every exit path decrements it exactly once, so the
net effect of a whole `proxy` call on every active counter is zero. -/
abbrev DispatchBalanced : Prop :=
  (∀ s n, (beginRequest s n).active_connections n = s.active_connections n + 1) ∧
  (∀ s n, (releaseConnection s n).active_connections n = s.active_connections n - 1) ∧
  (∀ s path o ts m, (proxy s path o ts).2.active_connections m = s.active_connections m)

/-- C10, stated: the begin block bumps `total` and leaves `failed`
untouched; only the failure handler bumps `failed` and it leaves `total`
untouched; the success path and the `finally` release touch neither. -/
abbrev CounterDiscipline : Prop :=
  ∀ s n d ts p rt opt,
    (beginRequest s n).total_requests n = s.total_requests n + 1 ∧
    (beginRequest s n).failed_requests n = s.failed_requests n ∧
    (endRequestSuccess s n d ts p rt opt).total_requests n = s.total_requests n ∧
    (endRequestSuccess s n d ts p rt opt).failed_requests n = s.failed_requests n ∧
    (endRequestFailure s n d ts p rt).failed_requests n = s.failed_requests n + 1 ∧
    (endRequestFailure s n d ts p rt).total_requests n = s.total_requests n ∧
    (releaseConnection s n).total_requests n = s.total_requests n ∧
    (releaseConnection s n).failed_requests n = s.failed_requests n

/-- C10, stated: cumulative failed count never exceeds cumulative total
count, at any point of a serialized execution. -/
abbrev FailedLeTotal (t : List Ev) : Prop :=
  ∀ k, ∀ n ∈ serverNames, failsOf (t.take k) n ≤ beginsOf (t.take k) n

/-- C6, stated: selection returns `None` exactly when no backend is
healthy, and in that case the dispatcher replies 503 touching nothing. -/
abbrev SelectRejectSpec (s : ProxyState) (path : String) : Prop :=
  ((select_backend s path).1 = none ↔ get_healthy_backends s = []) ∧
  (get_healthy_backends s ≠ [] → (select_backend s path).1.isSome = true) ∧
  (∀ o ts, get_healthy_backends s = [] → proxy s path o ts = (ProxyResponse.unavailable, s)) ∧
  ProxyResponse.unavailable.statusCode = 503

/-- C8, stated: least-connections returns the first healthy backend with
the minimal active count; it never picks a backend while a strictly less
loaded healthy backend exists. -/
abbrev LeastConnSpec (s : ProxyState) : Prop :=
  ∃ b, least_connections s = some b ∧ b ∈ get_healthy_backends s ∧
    (∀ b2 ∈ get_healthy_backends s,
      s.active_connections b.name ≤ s.active_connections b2.name) ∧
    (∃ i, (get_healthy_backends s).get? i = some b ∧
      ∀ j b2, j < i → (get_healthy_backends s).get? j = some b2 →
        s.active_connections b.name < s.active_connections b2.name) ∧
    ¬ ∃ b2 ∈ get_healthy_backends s,
        s.active_connections b2.name < s.active_connections b.name

/-- C3 (amended), stated: on transport failure the dispatch nets the
active counter back to its old value, bumps `failed` and `total` for the
chosen backend once each, leaves every latency list untouched, appends a
`failed` history record with `optimized = false`, and replies 502. -/
abbrev FailureBookkeeping (s : ProxyState) (path ts : String) (d : ℚ) (b : Backend) : Prop :=
  (proxy s path (.failure d) ts).1 = ProxyResponse.badGateway b.name ∧
  (ProxyResponse.badGateway b.name).statusCode = 502 ∧
  (∀ n, (proxy s path (.failure d) ts).2.active_connections n = s.active_connections n) ∧
  (proxy s path (.failure d) ts).2.failed_requests b.name = s.failed_requests b.name + 1 ∧
  (proxy s path (.failure d) ts).2.total_requests b.name = s.total_requests b.name + 1 ∧
  (∀ n, (proxy s path (.failure d) ts).2.response_times n = s.response_times n) ∧
  (proxy s path (.failure d) ts).2.request_history =
    pushHistory s.request_history
      { timestamp := ts, path := "/" ++ path, type := request_type_of path,
        backend := b.name, duration := d * 1000, status := "failed", optimized := false }

/-- C7, stated: one round-robin step picks `healthy[cursor % len]` and
bumps the cursor; `N` successive selections follow cyclic declaration
order. -/
abbrev RRCyclic (s : ProxyState) : Prop :=
  ((round_robin s).1 =
      (get_healthy_backends s).get?
        (s.current_index % (get_healthy_backends s).length)) ∧
  ((round_robin s).2.current_index = s.current_index + 1) ∧
  (∀ N, (rrRun s N).1 =
      (List.range N).filterMap
        (fun i => (get_healthy_backends s).get?
          ((s.current_index + i) % (get_healthy_backends s).length)))

/-- C7, stated: over `N` successive selections each healthy backend is
chosen `⌊N/K⌋` or `⌈N/K⌉` times (and exactly `N/K` when `K` divides `N`). -/
abbrev RRFairCount (s : ProxyState) : Prop :=
  ∀ N j b, (get_healthy_backends s).get? j = some b →
    (rrRun s N).1.count b = N / (get_healthy_backends s).length ∨
    (N % (get_healthy_backends s).length ≠ 0 ∧
      (rrRun s N).1.count b = N / (get_healthy_backends s).length + 1)

/-- C9, stated: content-based routing serves a path with a recognized
prefix from the least-loaded healthy backend of the matching affinity when
one exists, and otherwise (unrecognized prefix, or no healthy backend of
that affinity) falls back to round-robin over all healthy backends. -/
abbrev ContentRouteSpec (s : ProxyState) (path : String) : Prop :=
  (∀ cat, (cat = "video" ∧ strStartsWith path "video/" = true) ∨
          (cat = "api" ∧ strStartsWith path "api/" = true) ∨
          (cat = "image" ∧ strStartsWith path "image/" = true) →
    (get_healthy_backends s).filter (fun b => b.type = cat) ≠ [] →
    (content_based_routing s path).2 = s ∧
    ∃ b, (content_based_routing s path).1 = some b ∧
      b ∈ (get_healthy_backends s).filter (fun b2 => b2.type = cat) ∧
      ∀ b2 ∈ (get_healthy_backends s).filter (fun b2 => b2.type = cat),
        s.active_connections b.name ≤ s.active_connections b2.name) ∧
  ((strStartsWith path "video/" = true →
      (get_healthy_backends s).filter (fun b => b.type = "video") = []) →
   (strStartsWith path "api/" = true →
      (get_healthy_backends s).filter (fun b => b.type = "api") = []) →
   (strStartsWith path "image/" = true →
      (get_healthy_backends s).filter (fun b => b.type = "image") = []) →
   content_based_routing s path = round_robin s)
/-- All fields of the state except the round-robin cursor. -/
abbrev NonCursorEq (s1 s2 : ProxyState) : Prop :=
  s1.backends = s2.backends ∧ s1.algorithm = s2.algorithm ∧
  s1.active_connections = s2.active_connections ∧
  s1.total_requests = s2.total_requests ∧
  s1.failed_requests = s2.failed_requests ∧
  s1.response_times = s2.response_times ∧
  s1.request_history = s2.request_history

/-- Count of `r` in `range N`, for the base case of the cyclic count. -/
lemma countP_beq_range (r N : Nat) :
    (List.range N).countP (fun i => i == r) = if r < N then 1 else 0 := by
  induction N with
  | zero => simp
  | succ n ih =>
    rw [List.range_succ, List.countP_append, ih]
    simp only [List.countP_cons, List.countP_nil, beq_iff_eq]
    split_ifs <;> omega

/-- Index shift under the modulus: `(c+i) % K` hits `j` exactly when
`i % K` hits the shifted residue. -/
lemma mod_shift_iff (K c j : Nat) (hK : 0 < K) (hj : j < K) (i : Nat) :
    ((c + i) % K = j) ↔ (i % K = (j + K - c % K) % K) := by
  have h1 : (c + i) % K = (c % K + i % K) % K := by
    conv_lhs => rw [Nat.add_mod]
  have haK : c % K < K := Nat.mod_lt _ hK
  have hbK : i % K < K := Nat.mod_lt _ hK
  set a := c % K with ha
  set b := i % K with hb
  have h2 : (a + b) % K = if a + b < K then a + b else a + b - K := by
    split_ifs with h
    · exact Nat.mod_eq_of_lt h
    · rw [Nat.mod_eq_sub_mod (le_of_not_lt h)]
      exact Nat.mod_eq_of_lt (by omega)
  have h3 : (j + K - a) % K = if j + K - a < K then j + K - a else j + K - a - K := by
    split_ifs with h
    · exact Nat.mod_eq_of_lt h
    · rw [Nat.mod_eq_sub_mod (le_of_not_lt h)]
      exact Nat.mod_eq_of_lt (by omega)
  rw [h1, h2, h3]
  split_ifs <;> omega

/-- Closed form for the number of `i < N` with `i % K = r`. -/
lemma countModHits (K r : Nat) (hK : 0 < K) (hr : r < K) :
    ∀ N, (List.range N).countP (fun i => i % K == r) =
      N / K + (if r < N % K then 1 else 0) := by
  intro N
  induction N using Nat.strong_induction_on with
  | _ N ih =>
    by_cases hN : N < K
    · have hdiv : N / K = 0 := Nat.div_eq_of_lt hN
      have hmod : N % K = N := Nat.mod_eq_of_lt hN
      have hcong : (List.range N).countP (fun i => i % K == r) =
          (List.range N).countP (fun i => i == r) := by
        apply List.countP_congr
        intro x hx
        have hxN : x < N := List.mem_range.mp hx
        have : x % K = x := Nat.mod_eq_of_lt (lt_trans hxN hN)
        simp [this]
      rw [hcong, countP_beq_range, hdiv, hmod]
      omega
    · obtain ⟨M, rfl⟩ : ∃ M, N = K + M := ⟨N - K, by omega⟩
      have hM : M < K + M := by omega
      rw [List.range_add, List.countP_append, List.countP_map]
      have hhead : (List.range K).countP (fun i => i % K == r) =
          (List.range K).countP (fun i => i == r) := by
        apply List.countP_congr
        intro x hx
        have : x % K = x := Nat.mod_eq_of_lt (List.mem_range.mp hx)
        simp [this]
      have htail : (List.range M).countP ((fun i => i % K == r) ∘ (K + ·)) =
          (List.range M).countP (fun i => i % K == r) := by
        apply List.countP_congr
        intro x _
        simp [Function.comp, Nat.add_mod_left]
      rw [hhead, countP_beq_range, htail, ih M hM]
      have hd : (K + M) / K = M / K + 1 := by
        rw [Nat.add_comm]; exact Nat.add_div_right M hK
      have hm : (K + M) % K = M % K := Nat.add_mod_left K M
      rw [hd, hm]
      simp [hr]
      omega
/-- The fold inside `pyMin` returns its accumulator or a list element. -/
lemma pyMinFold_mem (f : Backend → Int) (xs : List Backend) (x : Backend) :
    xs.foldl (fun acc y => if f y < f acc then y else acc) x = x ∨
    xs.foldl (fun acc y => if f y < f acc then y else acc) x ∈ xs := by
  induction xs generalizing x with
  | nil => left; rfl
  | cons y ys ih =>
    simp only [List.foldl_cons]
    rcases ih (if f y < f x then y else x) with h | h
    · by_cases hc : f y < f x
      · right; rw [h, if_pos hc]; exact List.mem_cons_self y ys
      · left; rw [h, if_neg hc]
    · right; exact List.mem_cons_of_mem _ h

/-- The fold inside `pyMin` computes a minimum of the accumulator and the
list. -/
lemma pyMinFold_le (f : Backend → Int) (xs : List Backend) (x : Backend) :
    f (xs.foldl (fun acc y => if f y < f acc then y else acc) x) ≤ f x ∧
    ∀ y ∈ xs, f (xs.foldl (fun acc y2 => if f y2 < f acc then y2 else acc) x) ≤ f y := by
  induction xs generalizing x with
  | nil => exact ⟨le_refl _, by simp⟩
  | cons y ys ih =>
    simp only [List.foldl_cons]
    obtain ⟨h1, h2⟩ := ih (if f y < f x then y else x)
    have hx : f (if f y < f x then y else x) ≤ f x := by
      split_ifs with hc
      · exact le_of_lt hc
      · exact le_refl _
    have hy : f (if f y < f x then y else x) ≤ f y := by
      split_ifs with hc
      · exact le_refl _
      · exact le_of_not_lt hc
    refine ⟨le_trans h1 hx, ?_⟩
    intro z hz
    rcases List.mem_cons.mp hz with rfl | hz2
    · exact le_trans h1 hy
    · exact h2 z hz2

/-- The fold inside `pyMin` keeps the accumulator unless a strictly
smaller element appears, and then returns the first such minimal element:
every element strictly before the result has a strictly larger key. -/
lemma pyMinFold_first (f : Backend → Int) (xs : List Backend) (x : Backend) :
    (xs.foldl (fun acc y => if f y < f acc then y else acc) x = x ∧
      ∀ y ∈ xs, f x ≤ f y) ∨
    (∃ i y, xs.get? i = some y ∧
      xs.foldl (fun acc y2 => if f y2 < f acc then y2 else acc) x = y ∧
      f y < f x ∧
      ∀ j z, j < i → xs.get? j = some z → f y < f z) := by
  induction xs generalizing x with
  | nil => left; exact ⟨rfl, by simp⟩
  | cons y ys ih =>
    simp only [List.foldl_cons]
    by_cases hc : f y < f x
    · rw [if_pos hc]
      rcases ih y with ⟨heq, hall⟩ | ⟨i, w, hget, heq, hlt, hbefore⟩
      · right
        refine ⟨0, y, rfl, heq, hc, ?_⟩
        intro j z hj _
        omega
      · right
        refine ⟨i + 1, w, hget, heq, lt_trans hlt hc, ?_⟩
        intro j z hj hjget
        cases j with
        | zero =>
          simp only [List.get?] at hjget
          cases hjget
          exact hlt
        | succ j2 =>
          exact hbefore j2 z (by omega) hjget
    · rw [if_neg hc]
      rcases ih x with ⟨heq, hall⟩ | ⟨i, w, hget, heq, hlt, hbefore⟩
      · left
        refine ⟨heq, ?_⟩
        intro z hz
        rcases List.mem_cons.mp hz with rfl | hz2
        · exact le_of_not_lt hc
        · exact hall z hz2
      · right
        refine ⟨i + 1, w, hget, heq, hlt, ?_⟩
        intro j z hj hjget
        cases j with
        | zero =>
          simp only [List.get?] at hjget
          cases hjget
          exact lt_of_lt_of_le hlt (le_of_not_lt hc)
        | succ j2 =>
          exact hbefore j2 z (by omega) hjget

/-- `pyMin` on a non-empty list: a first minimal element. -/
lemma pyMin_spec (f : Backend → Int) (l : List Backend) (hne : l ≠ []) :
    ∃ b, pyMin f l = some b ∧ b ∈ l ∧
      (∀ b2 ∈ l, f b ≤ f b2) ∧
      ∃ i, l.get? i = some b ∧
        ∀ j b2, j < i → l.get? j = some b2 → f b < f b2 := by
  cases l with
  | nil => exact absurd rfl hne
  | cons x xs =>
    refine ⟨xs.foldl (fun acc y => if f y < f acc then y else acc) x, rfl, ?_, ?_, ?_⟩
    · rcases pyMinFold_mem f xs x with h | h
      · rw [h]; exact List.mem_cons_self x xs
      · exact List.mem_cons_of_mem _ h
    · intro b2 hb2
      obtain ⟨h1, h2⟩ := pyMinFold_le f xs x
      rcases List.mem_cons.mp hb2 with rfl | hb3
      · exact h1
      · exact h2 b2 hb3
    · rcases pyMinFold_first f xs x with ⟨heq, _⟩ | ⟨i, w, hget, heq, hlt, hbefore⟩
      · refine ⟨0, by rw [heq]; rfl, ?_⟩
        intro j z hj _
        omega
      · refine ⟨i + 1, by rw [heq]; simpa using hget, ?_⟩
        intro j z hj hjget
        cases j with
        | zero =>
          simp only [List.get?] at hjget
          cases hjget
          rw [heq]; exact hlt
        | succ j2 =>
          rw [heq]
          exact hbefore j2 z (by omega) (by simpa using hjget)

lemma round_robin_none (s : ProxyState) (h : get_healthy_backends s = []) :
    round_robin s = (none, s) := by
  simp [round_robin, h]

lemma round_robin_spec (s : ProxyState) (hne : get_healthy_backends s ≠ []) :
    round_robin s =
      ((get_healthy_backends s).get?
        (s.current_index % (get_healthy_backends s).length),
       { s with current_index := s.current_index + 1 }) := by
  simp [round_robin, hne]

lemma round_robin_isSome (s : ProxyState) (hne : get_healthy_backends s ≠ []) :
    (round_robin s).1.isSome = true := by
  rw [round_robin_spec s hne]
  have hK : 0 < (get_healthy_backends s).length := List.length_pos.mpr hne
  have hlt : s.current_index % (get_healthy_backends s).length <
      (get_healthy_backends s).length := Nat.mod_lt _ hK
  cases hg : (get_healthy_backends s).get?
      (s.current_index % (get_healthy_backends s).length) with
  | none =>
    rw [List.get?_eq_none] at hg
    omega
  | some b => simp

lemma round_robin_noncursor (s : ProxyState) : NonCursorEq (round_robin s).2 s := by
  by_cases h : get_healthy_backends s = []
  · rw [round_robin_none s h]
    exact ⟨rfl, rfl, rfl, rfl, rfl, rfl, rfl⟩
  · rw [round_robin_spec s h]
    exact ⟨rfl, rfl, rfl, rfl, rfl, rfl, rfl⟩

lemma pyMin_isSome (f : Backend → Int) (l : List Backend) (hne : l ≠ []) :
    (pyMin f l).isSome = true := by
  cases l with
  | nil => exact absurd rfl hne
  | cons x xs => rfl

/-- The three routed prefixes are pairwise exclusive on any path. -/
lemma sw_exclusive (p : String) :
    (strStartsWith p "api/" = true → strStartsWith p "video/" = false) ∧
    (strStartsWith p "image/" = true → strStartsWith p "video/" = false) ∧
    (strStartsWith p "image/" = true → strStartsWith p "api/" = false) := by
  unfold strStartsWith
  have hv : "video/".toList = ['v','i','d','e','o','/'] := rfl
  have ha : "api/".toList = ['a','p','i','/'] := rfl
  have hi : "image/".toList = ['i','m','a','g','e','/'] := rfl
  rw [hv, ha, hi]
  cases hp : p.toList with
  | nil => simp [List.isPrefixOf]
  | cons c cs =>
    simp only [List.isPrefixOf, Bool.and_eq_true, beq_iff_eq]
    refine ⟨?_, ?_, ?_⟩ <;> rintro ⟨rfl, -⟩ <;> simp

lemma content_video_match (s : ProxyState) (path : String)
    (hne : get_healthy_backends s ≠ [])
    (h1 : strStartsWith path "video/" = true)
    (h2 : (get_healthy_backends s).filter (fun b => b.type = "video") ≠ []) :
    content_based_routing s path =
      (pyMin (fun b => s.active_connections b.name)
        ((get_healthy_backends s).filter (fun b => b.type = "video")), s) := by
  simp [content_based_routing, hne, h1, h2]

lemma content_video_fallback (s : ProxyState) (path : String)
    (hne : get_healthy_backends s ≠ [])
    (h1 : strStartsWith path "video/" = true)
    (h2 : (get_healthy_backends s).filter (fun b => b.type = "video") = []) :
    content_based_routing s path = round_robin s := by
  simp [content_based_routing, hne, h1, h2]

lemma content_api_match (s : ProxyState) (path : String)
    (hne : get_healthy_backends s ≠ [])
    (h1 : strStartsWith path "api/" = true)
    (h2 : (get_healthy_backends s).filter (fun b => b.type = "api") ≠ []) :
    content_based_routing s path =
      (pyMin (fun b => s.active_connections b.name)
        ((get_healthy_backends s).filter (fun b => b.type = "api")), s) := by
  have hv : strStartsWith path "video/" = false := (sw_exclusive path).1 h1
  simp [content_based_routing, hne, hv, h1, h2]

lemma content_api_fallback (s : ProxyState) (path : String)
    (hne : get_healthy_backends s ≠ [])
    (h1 : strStartsWith path "api/" = true)
    (h2 : (get_healthy_backends s).filter (fun b => b.type = "api") = []) :
    content_based_routing s path = round_robin s := by
  have hv : strStartsWith path "video/" = false := (sw_exclusive path).1 h1
  simp [content_based_routing, hne, hv, h1, h2]

lemma content_image_match (s : ProxyState) (path : String)
    (hne : get_healthy_backends s ≠ [])
    (h1 : strStartsWith path "image/" = true)
    (h2 : (get_healthy_backends s).filter (fun b => b.type = "image") ≠ []) :
    content_based_routing s path =
      (pyMin (fun b => s.active_connections b.name)
        ((get_healthy_backends s).filter (fun b => b.type = "image")), s) := by
  have hv : strStartsWith path "video/" = false := (sw_exclusive path).2.1 h1
  have ha : strStartsWith path "api/" = false := (sw_exclusive path).2.2 h1
  simp [content_based_routing, hne, hv, ha, h1, h2]

lemma content_image_fallback (s : ProxyState) (path : String)
    (hne : get_healthy_backends s ≠ [])
    (h1 : strStartsWith path "image/" = true)
    (h2 : (get_healthy_backends s).filter (fun b => b.type = "image") = []) :
    content_based_routing s path = round_robin s := by
  have hv : strStartsWith path "video/" = false := (sw_exclusive path).2.1 h1
  have ha : strStartsWith path "api/" = false := (sw_exclusive path).2.2 h1
  simp [content_based_routing, hne, hv, ha, h1, h2]

lemma content_default_fallback (s : ProxyState) (path : String)
    (hne : get_healthy_backends s ≠ [])
    (hv : strStartsWith path "video/" = false)
    (ha : strStartsWith path "api/" = false)
    (hi : strStartsWith path "image/" = false) :
    content_based_routing s path = round_robin s := by
  simp [content_based_routing, hne, hv, ha, hi]

lemma content_based_routing_none (s : ProxyState) (path : String)
    (h : get_healthy_backends s = []) :
    content_based_routing s path = (none, s) := by
  simp [content_based_routing, h]

lemma content_based_routing_isSome (s : ProxyState) (path : String)
    (hne : get_healthy_backends s ≠ []) :
    (content_based_routing s path).1.isSome = true := by
  by_cases h1 : strStartsWith path "video/" = true
  · by_cases h2 : (get_healthy_backends s).filter (fun b => b.type = "video") = []
    · rw [content_video_fallback s path hne h1 h2]
      exact round_robin_isSome s hne
    · rw [content_video_match s path hne h1 h2]
      exact pyMin_isSome _ _ h2
  · by_cases h3 : strStartsWith path "api/" = true
    · by_cases h4 : (get_healthy_backends s).filter (fun b => b.type = "api") = []
      · rw [content_api_fallback s path hne h3 h4]
        exact round_robin_isSome s hne
      · rw [content_api_match s path hne h3 h4]
        exact pyMin_isSome _ _ h4
    · by_cases h5 : strStartsWith path "image/" = true
      · by_cases h6 : (get_healthy_backends s).filter (fun b => b.type = "image") = []
        · rw [content_image_fallback s path hne h5 h6]
          exact round_robin_isSome s hne
        · rw [content_image_match s path hne h5 h6]
          exact pyMin_isSome _ _ h6
      · rw [content_default_fallback s path hne
            (Bool.not_eq_true _ ▸ h1 : strStartsWith path "video/" = false)
            (Bool.not_eq_true _ ▸ h3) (Bool.not_eq_true _ ▸ h5)]
        exact round_robin_isSome s hne

lemma content_based_routing_noncursor (s : ProxyState) (path : String) :
    NonCursorEq (content_based_routing s path).2 s := by
  by_cases h0 : get_healthy_backends s = []
  · rw [content_based_routing_none s path h0]
    exact ⟨rfl, rfl, rfl, rfl, rfl, rfl, rfl⟩
  by_cases h1 : strStartsWith path "video/" = true
  · by_cases h2 : (get_healthy_backends s).filter (fun b => b.type = "video") = []
    · rw [content_video_fallback s path h0 h1 h2]; exact round_robin_noncursor s
    · rw [content_video_match s path h0 h1 h2]
      exact ⟨rfl, rfl, rfl, rfl, rfl, rfl, rfl⟩
  by_cases h3 : strStartsWith path "api/" = true
  · by_cases h4 : (get_healthy_backends s).filter (fun b => b.type = "api") = []
    · rw [content_api_fallback s path h0 h3 h4]; exact round_robin_noncursor s
    · rw [content_api_match s path h0 h3 h4]
      exact ⟨rfl, rfl, rfl, rfl, rfl, rfl, rfl⟩
  by_cases h5 : strStartsWith path "image/" = true
  · by_cases h6 : (get_healthy_backends s).filter (fun b => b.type = "image") = []
    · rw [content_image_fallback s path h0 h5 h6]; exact round_robin_noncursor s
    · rw [content_image_match s path h0 h5 h6]
      exact ⟨rfl, rfl, rfl, rfl, rfl, rfl, rfl⟩
  rw [content_default_fallback s path h0 (Bool.not_eq_true _ ▸ h1)
      (Bool.not_eq_true _ ▸ h3) (Bool.not_eq_true _ ▸ h5)]
  exact round_robin_noncursor s

lemma file_size_based_routing_none (s : ProxyState) (path : String)
    (h : get_healthy_backends s = []) :
    file_size_based_routing s path = (none, s) := by
  simp [file_size_based_routing, h]

lemma file_size_eq (s : ProxyState) (path : String)
    (hne : get_healthy_backends s ≠ []) :
    file_size_based_routing s path =
      (pyMin (fun b => s.active_connections b.name) (get_healthy_backends s), s) ∨
    file_size_based_routing s path = round_robin s := by
  by_cases hL : (large_file_extensions.any (fun ext => strEndsWith path ext) ||
      strContains path "video/") = true
  · left; simp [file_size_based_routing, hne, hL]
  · right; simp [file_size_based_routing, hne, hL]

lemma file_size_based_routing_isSome (s : ProxyState) (path : String)
    (hne : get_healthy_backends s ≠ []) :
    (file_size_based_routing s path).1.isSome = true := by
  rcases file_size_eq s path hne with h | h <;> rw [h]
  · exact pyMin_isSome _ _ hne
  · exact round_robin_isSome s hne

lemma file_size_based_routing_noncursor (s : ProxyState) (path : String) :
    NonCursorEq (file_size_based_routing s path).2 s := by
  by_cases h0 : get_healthy_backends s = []
  · rw [file_size_based_routing_none s path h0]
    exact ⟨rfl, rfl, rfl, rfl, rfl, rfl, rfl⟩
  · rcases file_size_eq s path h0 with h | h <;> rw [h]
    · exact ⟨rfl, rfl, rfl, rfl, rfl, rfl, rfl⟩
    · exact round_robin_noncursor s

lemma least_connections_isSome (s : ProxyState)
    (hne : get_healthy_backends s ≠ []) :
    (least_connections s).isSome = true :=
  pyMin_isSome _ _ hne

/-- The five branches of `select_backend`, abstractly. -/
lemma select_backend_cases (s : ProxyState) (path : String) :
    select_backend s path = round_robin s ∨
    select_backend s path = (least_connections s, s) ∨
    select_backend s path = content_based_routing s path ∨
    select_backend s path = file_size_based_routing s path := by
  unfold select_backend
  split_ifs <;> tauto

lemma select_backend_none (s : ProxyState) (path : String)
    (h : get_healthy_backends s = []) :
    select_backend s path = (none, s) := by
  rcases select_backend_cases s path with hc | hc | hc | hc <;> rw [hc]
  · exact round_robin_none s h
  · simp [least_connections, pyMin, h]
  · exact content_based_routing_none s path h
  · exact file_size_based_routing_none s path h

lemma select_backend_isSome (s : ProxyState) (path : String)
    (hne : get_healthy_backends s ≠ []) :
    (select_backend s path).1.isSome = true := by
  rcases select_backend_cases s path with hc | hc | hc | hc <;> rw [hc]
  · exact round_robin_isSome s hne
  · exact least_connections_isSome s hne
  · exact content_based_routing_isSome s path hne
  · exact file_size_based_routing_isSome s path hne

lemma select_backend_noncursor (s : ProxyState) (path : String) :
    NonCursorEq (select_backend s path).2 s := by
  rcases select_backend_cases s path with hc | hc | hc | hc <;> rw [hc]
  · exact round_robin_noncursor s
  · exact ⟨rfl, rfl, rfl, rfl, rfl, rfl, rfl⟩
  · exact content_based_routing_noncursor s path
  · exact file_size_based_routing_noncursor s path

/-- C4: the policy switch accepts exactly the four names of
`valid_algorithms`, and rejects everything else unchanged.  The fourth
accepted name is `"file-size"`. -/
theorem change_algorithm_spec (s : ProxyState) (a : String) :
    ((a = "round-robin" ∨ a = "least-connections" ∨ a = "content-based" ∨
        a = "file-size") →
      (change_algorithm s a).1 = ("Algorithm changed to " ++ a, 200) ∧
      (change_algorithm s a).2.algorithm = a) ∧
    (¬ (a = "round-robin" ∨ a = "least-connections" ∨ a = "content-based" ∨
        a = "file-size") →
      (change_algorithm s a).1 = ("Invalid algorithm", 400) ∧
      (change_algorithm s a).2 = s) := by
  have hmem : a ∈ valid_algorithms ↔
      (a = "round-robin" ∨ a = "least-connections" ∨ a = "content-based" ∨
        a = "file-size") := by
    simp [valid_algorithms]
  constructor
  · intro h
    rw [change_algorithm, if_pos (hmem.mpr h)]
    exact ⟨rfl, rfl⟩
  · intro h
    rw [change_algorithm, if_neg (fun hm => h (hmem.mp hm))]
    exact ⟨rfl, rfl⟩

/-- C4 counterexample: the spec-level name `"file-size-based"` is NOT
accepted: the request is rejected with a 400 and the policy stays
`"content-based"`, while the claim says this name must be accepted. -/
theorem change_algorithm_rejects_file_size_based :
    (change_algorithm initState "file-size-based").1 = ("Invalid algorithm", 400) ∧
    (change_algorithm initState "file-size-based").2.algorithm = "content-based" ∧
    (change_algorithm initState "file-size").1.2 = 200 := by
  refine ⟨?_, ?_, ?_⟩ <;> rfl

theorem change_algorithm_spec_witness :
    ("file-size" = "round-robin" ∨ "file-size" = "least-connections" ∨
      "file-size" = "content-based" ∨ "file-size" = "file-size") ∧
    (change_algorithm initState "file-size").1 =
      ("Algorithm changed to " ++ "file-size", 200) ∧
    (change_algorithm initState "file-size").2.algorithm = "file-size" :=
  ⟨by decide,
   (change_algorithm_spec initState "file-size").1 (by decide)⟩

/-- C5 (amended): each probe outcome assigns the health flag in one step,
with no dependence on the previous flag (no debounce, both directions);
the flag becomes true exactly when the probe response status is 200, and
false on any other status or on a connection error / timeout. -/
theorem probeUpdate_spec (b : Backend) (st : Nat) (h : Bool) (r : ProbeResult) :
    ((probeUpdate b (.response st)).healthy = (st == 200)) ∧
    ((probeUpdate b .connectionError).healthy = false) ∧
    ((probeUpdate { b with healthy := h } r).healthy = (probeUpdate b r).healthy) ∧
    ((probeUpdate b r).name = b.name ∧ (probeUpdate b r).type = b.type ∧
      (probeUpdate b r).url = b.url) := by
  cases r <;> exact ⟨rfl, rfl, rfl, rfl, rfl, rfl⟩

/-- C5 counterexample: a 201 response is a successful (2xx) probe in the
claim's sense, yet the code marks the backend unhealthy — even one that
was healthy before the probe. -/
theorem probeUpdate_unhealthy_on_201 :
    specProbeSuccess (.response 201) = true ∧
    (probeUpdate
      { name := "ServerA", url := "http://localhost:5001", type := "video",
        healthy := true, color := "#FF6B6B" }
      (.response 201)).healthy = false := by
  exact ⟨rfl, rfl⟩

/-- C2 (amended): the stored latency list is unbounded — every append
grows it by one, nothing is evicted — while the stats query averages over
the sliding window of the (at most) 10 most recent entries: the window is
a suffix, has length `min len 10`, slides by one on each append once the
list holds 10 entries, and the reported value is the window's mean (in
milliseconds). -/
theorem latency_window_spec (l : List ℚ) (d : ℚ) (hl : l ≠ []) :
    (appendLatency l d).length = l.length + 1 ∧
    (lastTen l).length = min l.length 10 ∧
    (∃ pre, l = pre ++ lastTen l) ∧
    (10 ≤ l.length → lastTen (appendLatency l d) = (lastTen l).drop 1 ++ [d]) ∧
    avg_response_time_ms l = (lastTen l).sum / ((lastTen l).length : ℚ) * 1000 := by
  refine ⟨?_, ?_, ?_, ?_, ?_⟩
  · simp [appendLatency]
  · simp [lastTen]
    omega
  · exact ⟨l.take (l.length - 10), (List.take_append_drop _ l).symm⟩
  · intro h10
    unfold lastTen appendLatency
    simp only [List.length_append, List.length_singleton]
    rw [List.drop_append_eq_append_drop]
    have h1 : l.length + 1 - 10 - l.length = 0 := by omega
    rw [h1, List.drop_zero, List.drop_drop]
    have h2 : l.length + 1 - 10 = l.length - 10 + 1 := by omega
    rw [h2]
  · rw [avg_response_time_ms, if_neg hl]

theorem latency_window_spec_witness :
    ([(1 : ℚ), 2] ≠ []) ∧
    ((appendLatency [(1 : ℚ), 2] 3).length = [(1 : ℚ), 2].length + 1 ∧
      (lastTen [(1 : ℚ), 2]).length = min [(1 : ℚ), 2].length 10 ∧
      (∃ pre, [(1 : ℚ), 2] = pre ++ lastTen [(1 : ℚ), 2]) ∧
      (10 ≤ [(1 : ℚ), 2].length →
        lastTen (appendLatency [(1 : ℚ), 2] 3) = (lastTen [(1 : ℚ), 2]).drop 1 ++ [3]) ∧
      avg_response_time_ms [(1 : ℚ), 2] =
        (lastTen [(1 : ℚ), 2]).sum / ((lastTen [(1 : ℚ), 2]).length : ℚ) * 1000) :=
  ⟨by decide, latency_window_spec [(1 : ℚ), 2] 3 (by decide)⟩

/-- C2 counterexample: eleven appends leave a list of length 11 — the
stored sequence is not bounded at capacity 10 (the spec-modelled bounded
append would keep it at 10). -/
theorem latency_list_unbounded :
    ((List.replicate 11 (1 : ℚ)).foldl appendLatency []).length = 11 ∧
    ¬ ((List.replicate 11 (1 : ℚ)).foldl appendLatency []).length ≤ 10 ∧
    ((List.replicate 11 (1 : ℚ)).foldl boundedAppendSpec []).length = 10 := by
  refine ⟨by decide, by decide, by decide⟩

/-- C6: selection fails exactly on an empty healthy set; the dispatcher
then replies 503 and the state — every metric included — is untouched. -/
theorem select_reject_spec (s : ProxyState) (path : String) :
    SelectRejectSpec s path := by
  refine ⟨⟨?_, ?_⟩, ?_, ?_, rfl⟩
  · intro hnone
    by_contra hne
    have := select_backend_isSome s path hne
    rw [hnone] at this
    cases this
  · intro hemp
    rw [select_backend_none s path hemp]
  · intro hne
    exact select_backend_isSome s path hne
  · intro o ts hemp
    simp [proxy, select_backend_none s path hemp]

theorem select_reject_spec_witness :
    get_healthy_backends downState = [] ∧
    proxy downState "video/movie.mp4" (.success 200 "ok" 1) "t" =
      (ProxyResponse.unavailable, downState) :=
  ⟨by decide,
   (select_reject_spec downState "video/movie.mp4").2.2.1
     (.success 200 "ok" 1) "t" (by decide)⟩

/-- C8: least-connections picks the first backend of minimal active count
in healthy-list order, and never picks over a strictly less loaded one. -/
theorem least_connections_spec (s : ProxyState)
    (hne : get_healthy_backends s ≠ []) : LeastConnSpec s := by
  obtain ⟨b, hpm, hmem, hmin, i, hget, hfirst⟩ :=
    pyMin_spec (fun b => s.active_connections b.name) (get_healthy_backends s) hne
  refine ⟨b, hpm, hmem, hmin, ⟨i, hget, hfirst⟩, ?_⟩
  rintro ⟨b2, hb2, hlt⟩
  exact absurd (hmin b2 hb2) (not_le.mpr hlt)

theorem least_connections_spec_witness :
    get_healthy_backends initState ≠ [] ∧ LeastConnSpec initState :=
  ⟨by decide, least_connections_spec initState (by decide)⟩

/-- The net effect of a whole `proxy` call on every active counter is
zero: the begin-block increment is matched by the `finally` decrement on
every exit path. -/
lemma proxy_active_eq (s : ProxyState) (path : String) (o : Outcome) (ts : String)
    (m : String) :
    (proxy s path o ts).2.active_connections m = s.active_connections m := by
  have hnc := select_backend_noncursor s path
  cases hp : select_backend s path with
  | mk o1 s1 =>
    rw [hp] at hnc
    dsimp only at hnc
    obtain ⟨hb, halg, hact, htot, hfail, hresp, hhist⟩ := hnc
    cases o1 with
    | none =>
      simp only [proxy, hp]
      rw [hact]
    | some b =>
      cases o with
      | success st ct d =>
        simp only [proxy, hp, releaseConnection, endRequestSuccess, beginRequest, upd]
        rw [hact]
        by_cases hm : m = b.name <;> simp [hm]
      | failure d =>
        simp only [proxy, hp, releaseConnection, endRequestFailure, beginRequest, upd]
        rw [hact]
        by_cases hm : m = b.name <;> simp [hm]

/-- Explicit form of the failure path of `proxy` once a backend has been
selected. -/
lemma proxy_failure_eq (s : ProxyState) (path ts : String) (d : ℚ) (b : Backend)
    (hsel : (select_backend s path).1 = some b) :
    proxy s path (.failure d) ts =
      (.badGateway b.name,
       releaseConnection
         (endRequestFailure (beginRequest (select_backend s path).2 b.name)
           b.name d ts ("/" ++ path) (request_type_of path))
         b.name) := by
  cases hp : select_backend s path with
  | mk o1 s1 =>
    have ho : o1 = some b := by rw [hp] at hsel; exact hsel
    subst ho
    simp only [proxy, hp]

/-- C3 (amended): failure-path bookkeeping — active released, failed and
total bumped once, latency lists untouched, failed record appended with
`optimized = false`, 502 to the caller. -/
theorem failure_bookkeeping (s : ProxyState) (path ts : String) (d : ℚ)
    (b : Backend) (hsel : (select_backend s path).1 = some b) :
    FailureBookkeeping s path ts d b := by
  have hnc := select_backend_noncursor s path
  cases hp : select_backend s path with
  | mk o1 s1 =>
    have ho : o1 = some b := by rw [hp] at hsel; exact hsel
    subst ho
    rw [hp] at hnc
    dsimp only at hnc
    obtain ⟨hb, halg, hact, htot, hfail, hresp, hhist⟩ := hnc
    refine ⟨?_, rfl, ?_, ?_, ?_, ?_, ?_⟩
    · simp only [proxy, hp]
    · intro n
      simp only [proxy, hp, releaseConnection, endRequestFailure, beginRequest, upd]
      rw [hact]
      by_cases hm : n = b.name <;> simp [hm]
    · simp only [proxy, hp, releaseConnection, endRequestFailure, beginRequest, upd]
      rw [hfail]
      simp
    · simp only [proxy, hp, releaseConnection, endRequestFailure, beginRequest, upd]
      rw [htot]
      simp
    · intro n
      simp only [proxy, hp, releaseConnection, endRequestFailure, beginRequest, upd]
      rw [hresp]
    · simp only [proxy, hp, releaseConnection, endRequestFailure, beginRequest, upd]
      rw [hhist]

theorem failure_bookkeeping_witness :
    (select_backend initState "api/x").1 =
      some { name := "ServerB", url := "http://localhost:5002", type := "api",
             healthy := true, color := "#4ECDC4" } ∧
    FailureBookkeeping initState "api/x" "10:00:00" 2
      { name := "ServerB", url := "http://localhost:5002", type := "api",
        healthy := true, color := "#4ECDC4" } :=
  ⟨by decide,
   failure_bookkeeping initState "api/x" "10:00:00" 2 _ (by decide)⟩

/-- C3 counterexample: on a failed forward the duration is NOT appended to
the backend's trailing-latency list — the list stays empty where the claim
requires one appended entry — although active is released, failed is
bumped, and the caller gets the 502. -/
theorem failure_does_not_append_latency :
    (proxy initState "api/x" (.failure 2) "10:00:00").2.response_times "ServerB" = [] ∧
    (proxy initState "api/x" (.failure 2) "10:00:00").2.response_times "ServerB" ≠
      appendLatency (initState.response_times "ServerB") 2 ∧
    (proxy initState "api/x" (.failure 2) "10:00:00").2.failed_requests "ServerB" = 1 ∧
    (proxy initState "api/x" (.failure 2) "10:00:00").1 = .badGateway "ServerB" := by
  exact ⟨by decide, by decide, by decide, by decide⟩

/-- In every prefix of a proxy trace, completions never outnumber begins. -/
lemma ends_le_begins_take (t : List Ev) (h : TraceOk t) (k : Nat) (n : String)
    (hn : n ∈ serverNames) :
    endsOf (t.take k) n ≤ beginsOf (t.take k) n := by
  rcases le_or_lt k t.length with hk | hk
  · exact h.2 k hk n hn
  · rw [List.take_of_length_le (le_of_lt hk)]
    have := h.2 t.length (le_refl _) n hn
    rwa [List.take_length] at this

lemma sumActive_eq_open (t : List Ev) (hcov : ∀ e ∈ t, e.name ∈ serverNames) :
    sumActive t = openDispatches t := by
  induction t with
  | nil => rfl
  | cons e t ih =>
    have he := hcov e (List.mem_cons_self e t)
    have ih2 := ih (fun x hx => hcov x (List.mem_cons_of_mem e hx))
    simp only [sumActive, openDispatches, activeOf, beginsOf, endsOf,
      List.countP_cons] at ih2 ⊢
    cases e with
    | beginReq n =>
      simp only [Ev.name, serverNames, List.mem_cons, List.not_mem_nil, or_false] at he
      rcases he with rfl | rfl | rfl
      · simp [show (Ev.beginReq "ServerA").isBegin = true from rfl,
          show (Ev.beginReq "ServerA").isEnd = false from rfl,
          show (Ev.beginReq "ServerA").name = "ServerA" from rfl]
        omega
      · simp [show (Ev.beginReq "ServerB").isBegin = true from rfl,
          show (Ev.beginReq "ServerB").isEnd = false from rfl,
          show (Ev.beginReq "ServerB").name = "ServerB" from rfl]
        omega
      · simp [show (Ev.beginReq "ServerC").isBegin = true from rfl,
          show (Ev.beginReq "ServerC").isEnd = false from rfl,
          show (Ev.beginReq "ServerC").name = "ServerC" from rfl]
        omega
    | endReq n su =>
      simp only [Ev.name, serverNames, List.mem_cons, List.not_mem_nil, or_false] at he
      rcases he with rfl | rfl | rfl
      · simp [show (Ev.endReq "ServerA" su).isBegin = false from rfl,
          show (Ev.endReq "ServerA" su).isEnd = true from rfl,
          show (Ev.endReq "ServerA" su).name = "ServerA" from rfl]
        omega
      · simp [show (Ev.endReq "ServerB" su).isBegin = false from rfl,
          show (Ev.endReq "ServerB" su).isEnd = true from rfl,
          show (Ev.endReq "ServerB" su).name = "ServerB" from rfl]
        omega
      · simp [show (Ev.endReq "ServerC" su).isBegin = false from rfl,
          show (Ev.endReq "ServerC" su).isEnd = true from rfl,
          show (Ev.endReq "ServerC" su).name = "ServerC" from rfl]
        omega

/-- C1: active counters are non-negative at every point, their pool-wide
sum always equals the number of open dispatches, and each `proxy` call
increments once at dispatch and decrements exactly once on every exit
path (success or failure), netting to zero. -/
theorem active_connection_invariant (t : List Ev) (h : TraceOk t) :
    ActiveNonneg t ∧ SumMatchesOpen t ∧ DispatchBalanced := by
  refine ⟨?_, ?_, ?_, ?_, ?_⟩
  · intro k n hn
    have := ends_le_begins_take t h k n hn
    unfold activeOf
    omega
  · intro k
    exact sumActive_eq_open (t.take k) (fun e he => h.1 e (List.take_subset k t he))
  · intro s n
    simp [beginRequest, upd]
  · intro s n
    simp [releaseConnection, upd]
  · intro s path o ts m
    exact proxy_active_eq s path o ts m

theorem active_connection_invariant_witness :
    TraceOk traceC1 ∧ (ActiveNonneg traceC1 ∧ SumMatchesOpen traceC1 ∧ DispatchBalanced) :=
  ⟨by decide, active_connection_invariant traceC1 (by decide)⟩

/-- Only completions can be failures: failed completions are a subset of
completions, per backend and prefix. -/
lemma failsOf_le_endsOf (t : List Ev) (n : String) :
    failsOf t n ≤ endsOf t n := by
  unfold failsOf endsOf
  apply List.countP_mono_left
  intro e _ hp
  cases e with
  | beginReq m => simp [Ev.isFail] at hp
  | endReq m su =>
    simp [Ev.isFail, Ev.isEnd] at hp ⊢
    exact hp.2

/-- C10: at every point, each backend's cumulative failed count is at
most its cumulative total count, and the individual operations keep the
discipline (total bumped at dispatch, failed only in the failure
handler). -/
theorem failed_le_total_invariant (t : List Ev) (h : TraceOk t) :
    FailedLeTotal t ∧ CounterDiscipline := by
  constructor
  · intro k n hn
    exact le_trans (failsOf_le_endsOf (t.take k) n) (ends_le_begins_take t h k n hn)
  · intro s n d ts p rt opt
    refine ⟨?_, ?_, rfl, rfl, ?_, rfl, rfl, rfl⟩ <;> simp [beginRequest, endRequestFailure, upd]

theorem failed_le_total_invariant_witness :
    TraceOk traceC10 ∧ (FailedLeTotal traceC10 ∧ CounterDiscipline) :=
  ⟨by decide, failed_le_total_invariant traceC10 (by decide)⟩

/-- C9: content-based routing — affinity match served by the least-loaded
matching healthy backend; otherwise round-robin fallback over all healthy
backends. -/
theorem content_routing_spec (s : ProxyState) (path : String)
    (hne : get_healthy_backends s ≠ []) : ContentRouteSpec s path := by
  constructor
  · intro cat hcat hfil
    rcases hcat with ⟨rfl, hsw⟩ | ⟨rfl, hsw⟩ | ⟨rfl, hsw⟩
    · rw [content_video_match s path hne hsw hfil]
      refine ⟨rfl, ?_⟩
      obtain ⟨b, hpm, hmem, hmin, -⟩ := pyMin_spec _ _ hfil
      exact ⟨b, hpm, hmem, hmin⟩
    · rw [content_api_match s path hne hsw hfil]
      refine ⟨rfl, ?_⟩
      obtain ⟨b, hpm, hmem, hmin, -⟩ := pyMin_spec _ _ hfil
      exact ⟨b, hpm, hmem, hmin⟩
    · rw [content_image_match s path hne hsw hfil]
      refine ⟨rfl, ?_⟩
      obtain ⟨b, hpm, hmem, hmin, -⟩ := pyMin_spec _ _ hfil
      exact ⟨b, hpm, hmem, hmin⟩
  · intro hv ha hi
    by_cases h1 : strStartsWith path "video/" = true
    · exact content_video_fallback s path hne h1 (hv h1)
    · by_cases h2 : strStartsWith path "api/" = true
      · exact content_api_fallback s path hne h2 (ha h2)
      · by_cases h3 : strStartsWith path "image/" = true
        · exact content_image_fallback s path hne h3 (hi h3)
        · exact content_default_fallback s path hne (Bool.not_eq_true _ ▸ h1)
            (Bool.not_eq_true _ ▸ h2) (Bool.not_eq_true _ ▸ h3)

theorem content_routing_spec_witness :
    get_healthy_backends initState ≠ [] ∧
    ContentRouteSpec initState "video/movie.mp4" ∧
    (content_based_routing initState "video/movie.mp4").1 =
      some { name := "ServerA", url := "http://localhost:5001", type := "video",
             healthy := true, color := "#FF6B6B" } :=
  ⟨by decide, content_routing_spec initState "video/movie.mp4" (by decide), by decide⟩

/-- Occurrences of `b` among the hits of `filterMap` equal the count of
positions whose lookup yields `b`. -/
lemma count_filterMap_eq_countP (f : Nat → Option Backend) (l : List Nat) (b : Backend) :
    (l.filterMap f).count b = l.countP (fun i => f i == some b) := by
  induction l with
  | nil => rfl
  | cons a l ih =>
    rw [List.filterMap_cons, List.countP_cons]
    cases hf : f a with
    | none => simp [hf, ih]
    | some x =>
      rw [List.count_cons, ih]
      simp [hf]

/-- Unrolling `N` round-robin selections from any state with a fixed
non-empty healthy list: the `i`-th selection is
`healthy[(cursor + i) % len]`, and the cursor advances by `N`. -/
lemma rrRun_sels (N : Nat) : ∀ s : ProxyState, get_healthy_backends s ≠ [] →
    (rrRun s N).1 = (List.range N).filterMap
      (fun i => (get_healthy_backends s).get?
        ((s.current_index + i) % (get_healthy_backends s).length)) ∧
    (rrRun s N).2.current_index = s.current_index + N ∧
    (rrRun s N).2.backends = s.backends := by
  induction N with
  | zero => intro s _; exact ⟨rfl, rfl, rfl⟩
  | succ n ih =>
    intro s hne
    have hK : 0 < (get_healthy_backends s).length := List.length_pos.mpr hne
    obtain ⟨b, hb⟩ : ∃ b, (get_healthy_backends s).get?
        (s.current_index % (get_healthy_backends s).length) = some b := by
      cases hg : (get_healthy_backends s).get?
          (s.current_index % (get_healthy_backends s).length) with
      | none =>
        rw [List.get?_eq_none] at hg
        exact absurd hg (not_le.mpr (Nat.mod_lt _ hK))
      | some b => exact ⟨b, rfl⟩
    have hrr : round_robin s =
        (some b, { s with current_index := s.current_index + 1 }) := by
      rw [round_robin_spec s hne, hb]
    have hs1 : get_healthy_backends { s with current_index := s.current_index + 1 } =
        get_healthy_backends s := rfl
    obtain ⟨ih1, ih2, ih3⟩ :=
      ih { s with current_index := s.current_index + 1 } (by rw [hs1]; exact hne)
    have hL : rrRun s (n + 1) =
        (b :: (rrRun { s with current_index := s.current_index + 1 } n).1,
         (rrRun { s with current_index := s.current_index + 1 } n).2) := by
      simp [rrRun, hrr]
    refine ⟨?_, ?_, ?_⟩
    · rw [hL]
      dsimp only
      rw [ih1]
      rw [List.range_succ_eq_map]
      rw [List.filterMap_cons_some (by simpa using hb)]
      rw [List.filterMap_map]
      refine congrArg (List.cons b)
        (congrArg (fun f => List.filterMap f (List.range n)) (funext fun i => ?_))
      show (get_healthy_backends s).get?
          ((s.current_index + 1 + i) % (get_healthy_backends s).length) =
        (get_healthy_backends s).get?
          ((s.current_index + (i + 1)) % (get_healthy_backends s).length)
      have harith : s.current_index + 1 + i = s.current_index + (i + 1) := by omega
      rw [harith]
    · rw [hL]
      dsimp only
      rw [ih2]
      dsimp only
      omega
    · rw [hL]
      dsimp only
      rw [ih3]

/-- C7: round-robin picks `healthy[cursor % len]`, bumps the cursor by
one, follows cyclic declaration order over successive selections, and
over `N` selections gives every healthy backend `⌊N/K⌋` or `⌈N/K⌉` hits
(exactly `N/K` when `K ∣ N`). -/
theorem round_robin_fair (s : ProxyState) (hne : get_healthy_backends s ≠ [])
    (hnd : (get_healthy_backends s).Nodup) : RRCyclic s ∧ RRFairCount s := by
  have hK : 0 < (get_healthy_backends s).length := List.length_pos.mpr hne
  constructor
  · refine ⟨?_, ?_, ?_⟩
    · rw [round_robin_spec s hne]
    · rw [round_robin_spec s hne]
    · intro N
      exact (rrRun_sels N s hne).1
  · intro N j b hget
    have hj : j < (get_healthy_backends s).length := by
      by_contra hj2
      rw [List.get?_eq_none.mpr (le_of_not_lt hj2)] at hget
      cases hget
    rw [(rrRun_sels N s hne).1, count_filterMap_eq_countP]
    have hcong : (List.range N).countP
        (fun i => (get_healthy_backends s).get?
          ((s.current_index + i) % (get_healthy_backends s).length) == some b) =
        (List.range N).countP
          (fun i => (s.current_index + i) % (get_healthy_backends s).length == j) := by
      apply List.countP_congr
      intro i _
      simp only [beq_iff_eq]
      constructor
      · intro hsome
        exact List.get?_inj (Nat.mod_lt _ hK) hnd (hsome.trans hget.symm)
      · intro hidx
        rw [hidx]
        exact hget
    rw [hcong]
    have hshift : (List.range N).countP
        (fun i => (s.current_index + i) % (get_healthy_backends s).length == j) =
        (List.range N).countP
          (fun i => i % (get_healthy_backends s).length ==
            (j + (get_healthy_backends s).length - s.current_index %
              (get_healthy_backends s).length) % (get_healthy_backends s).length) := by
      apply List.countP_congr
      intro i _
      simp only [beq_iff_eq]
      exact mod_shift_iff (get_healthy_backends s).length s.current_index j hK hj i
    rw [hshift, countModHits (get_healthy_backends s).length
      ((j + (get_healthy_backends s).length - s.current_index %
        (get_healthy_backends s).length) % (get_healthy_backends s).length)
      hK (Nat.mod_lt _ hK) N]
    by_cases hr : (j + (get_healthy_backends s).length - s.current_index %
        (get_healthy_backends s).length) % (get_healthy_backends s).length < N %
          (get_healthy_backends s).length
    · right
      refine ⟨by omega, by rw [if_pos hr]⟩
    · left
      rw [if_neg hr]
      omega

theorem round_robin_fair_witness :
    get_healthy_backends initState ≠ [] ∧
    (get_healthy_backends initState).Nodup ∧
    (RRCyclic initState ∧ RRFairCount initState) :=
  ⟨by decide, by decide, round_robin_fair initState (by decide) (by decide)⟩
